import Mathlib

/-
Verification of the round-robin recording scheduler in
`src/recorder/rec_sched.c`.

The scheduler state consists of a cyclic task list (`CIRCLEQ`, modelled
as a `List Nat` of task ids in ring order, head first), the
`tid_to_entry` index array (modelled as an association list holding the
non-NULL slots), the `current_entry` cursor (modelled as the `Option`al
task id of the entry it points to), and the `num_active_threads`
counter.  Task ids identify entries: while the live tasks have pairwise
distinct tids (which all theorems about pointer comparisons assume),
tid equality coincides with the pointer equality used by the C code.

External collaborators (`sys_waitpid_nonblock`, `waitpid`, the hpc and
ptrace helpers) live outside `src/`; they are passed in as oracle
parameters (`poll`, `bwait`) or modelled as no-ops on the scheduler
state, as the spec treats them as external side effects.

C behaviour that is undefined (dereferencing a NULL entry, operating on
an empty ring) is represented by the explicit outcome `nullDeref`;
failed `assert`s by `assertFail`; the `fatal()` call in the blocking
wait loop by `fatalError`.
-/

set_option maxRecDepth 4000

namespace RecSched

/-- Execution state of a traced task.  `rec_sched.c` only distinguishes
`PROCESSING_SYSCALL` from everything else; the enumeration's remaining
extent is modelled from the spec ("Runnable | ProcessingSyscall | other
blocked states"), since `share/task.h` is not under `src/`. -/
inductive ExecState where
  | RUNNABLE
  | PROCESSING_SYSCALL
  | OTHER_BLOCKED
deriving DecidableEq

/-- Fields of `struct context` that `rec_sched.c` reads or writes
(`share/task.h` itself is not under `src/`; the field list and types
follow the spec's Task Record).  Addresses are `Nat`, counters and
statuses machine ints modelled as `Int`. -/
structure Context where
  tid : Nat
  rec_tid : Nat
  exec_state : ExecState
  status : Int
  switchable : Bool
  switch_counter : Int
  child_mem_fd : Int
  desched_fd : Int
  desched_fd_child : Int
  syscallbuf_lib_start : Nat
  syscallbuf_lib_end : Nat
deriving DecidableEq

/-- The scheduler's process-wide state: the `CIRCLEQ` ring (task ids in
ring order, head first), the `tid_to_entry` index (association list of
the non-NULL array slots), the `current_entry` cursor and
`num_active_threads`. -/
structure SchedState where
  ring : List Nat
  tid_to_entry : List (Nat × Context)
  current_entry : Option Nat
  num_active_threads : Int
deriving DecidableEq

/-- Result of `rec_sched_get_active_thread`: the chosen task's id, the
`by_waitpid` out-parameter, and the post-call scheduler state; or one of
the abnormal terminations. -/
inductive SchedOutcome where
  | ok (chosen : Nat) (by_waitpid : Bool) (s : SchedState)
  | fatalError
  | nullDeref
deriving DecidableEq

/-- Result of a lifecycle operation (`register`/`deregister`). -/
inductive StateOutcome where
  | ok (s : SchedState)
  | assertFail
  | nullDeref
deriving DecidableEq

/-- Modelled from the spec: `MAX_TID` is defined in `share/config.h`,
which is not under `src/`; the spec only requires task ids to be
"bounded by a fixed maximum".  The concrete value is irrelevant to every
claim; 32768 is the traditional Linux pid bound. -/
def MAX_TID : Nat := 32768

/-- Lookup in the `tid_to_entry` array: the slot for `t`, if set
(`get_entry`/`get_task`, returning NULL modelled as `none`). -/
def lookupT : List (Nat × Context) → Nat → Option Context
  | [], _ => none
  | (k, c) :: rest, t => if k = t then some c else lookupT rest t

/-- Field update through a task pointer: apply `f` to the record stored
under tid `t` (e.g. `ctx->switch_counter = ...`). -/
def adjustT (l : List (Nat × Context)) (t : Nat) (f : Context → Context) :
    List (Nat × Context) :=
  l.map (fun kc => (kc.1, if kc.1 = t then f kc.2 else kc.2))

/-- Array store `tid_to_entry[t] = c`: overwrite the slot if set,
otherwise add it. -/
def setSlot (l : List (Nat × Context)) (t : Nat) (c : Context) :
    List (Nat × Context) :=
  if (lookupT l t).isSome then
    l.map (fun kc => if kc.1 = t then (t, c) else kc)
  else l ++ [(t, c)]

/-- Array store `tid_to_entry[t] = NULL`. -/
def eraseSlot (l : List (Nat × Context)) (t : Nat) : List (Nat × Context) :=
  l.filter (fun kc => kc.1 ≠ t)

/-- Position of the entry with tid `t` in the ring (length of the list
if absent). -/
def idxOf (t : Nat) : List Nat → Nat
  | [] => 0
  | x :: xs => if x = t then 0 else idxOf t xs + 1

/-- The tid stored at ring position `i` (0 for an out-of-range access,
which no theorem relies on). -/
def ringAt : List Nat → Nat → Nat
  | [], _ => 0
  | x :: _, 0 => x
  | _ :: xs, i + 1 => ringAt xs i

/-- Remove the first ring entry with tid `t` (`CIRCLEQ_REMOVE`). -/
def eraseFirst (t : Nat) : List Nat → List Nat
  | [] => []
  | x :: xs => if x = t then xs else x :: eraseFirst t xs

/-- `CIRCLEQ_LOOP_NEXT`: the cyclic successor of the entry with tid `t`. -/
def ringNext (ring : List Nat) (t : Nat) : Nat :=
  ringAt ring ((idxOf t ring + 1) % ring.length)

/-- `note_switch`: the commit-step budget update.  `prev = some chosen`
corresponds to the pointer equality `prev_ctx == ctx` (a NULL
`prev_ctx` is `none`). -/
def note_switch (tasks : List (Nat × Context)) (prev : Option Nat)
    (chosen : Nat) (max_events : Int) : List (Nat × Context) :=
  if prev = some chosen then
    adjustT tasks chosen (fun c => { c with switch_counter := c.switch_counter - 1 })
  else
    adjustT tasks chosen (fun c => { c with switch_counter := max_events })

/-- Cursor bootstrap (`if (!entry) entry = current_entry =
CIRCLEQ_FIRST(&head)`).  On an empty ring `CIRCLEQ_FIRST` yields the
list head sentinel; no theorem depends on that degenerate case. -/
def bootstrapCursor (s : SchedState) : SchedState :=
  match s.current_entry with
  | some _ => s
  | none => { s with current_entry := s.ring.head? }

/-- Result of the bounded full-revolution scan. -/
inductive ScanResult where
  | found (chosen : Nat) (by_waitpid : Bool) (tasks : List (Nat × Context))
  | blocked
  | broken
deriving DecidableEq

/-- The `do ... while (entry != current_entry)` scan: starting at ring
position `i`, visit at most `fuel` entries.  A task not in
`PROCESSING_SYSCALL` is taken immediately; otherwise a non-blocking
poll (`sys_waitpid_nonblock`, the oracle `poll`) may resolve it, in
which case its status is recorded.  `broken` marks the (impossible
under well-formedness) case of a ring tid missing from the index. -/
def scanLoop (ring : List Nat) (tasks : List (Nat × Context))
    (poll : Nat → Option Int) : Nat → Nat → ScanResult
  | _, 0 => .blocked
  | i, fuel + 1 =>
    let t := ringAt ring (i % ring.length)
    match lookupT tasks t with
    | none => .broken
    | some c =>
      if c.exec_state ≠ ExecState.PROCESSING_SYSCALL then
        .found t false tasks
      else
        match poll t with
        | some st => .found t true (adjustT tasks t (fun c2 => { c2 with status := st }))
        | none => scanLoop ring tasks poll ((i + 1) % ring.length) fuel

/-- Steps 4–5 of the selection algorithm: one full revolution starting
at the cursor, then the global blocking `waitpid(-1, ...)` fallback
(oracle `bwait`; `none` models a non-EINTR failure, which the code
answers with `fatal()`).  A successful blocking wait resolves the
reported tid via `get_entry` without a NULL check: an absent tid is the
NULL dereference `next_ctx->status = status`. -/
def scanAndFallback (s : SchedState) (poll : Nat → Option Int)
    (bwait : Option (Nat × Int)) : SchedOutcome :=
  match s.current_entry with
  | none => .nullDeref
  | some cu =>
    if s.ring.isEmpty then .nullDeref
    else
      match scanLoop s.ring s.tid_to_entry poll (idxOf cu s.ring) s.ring.length with
      | .found chosen bw tasks2 =>
        .ok chosen bw { s with tid_to_entry := tasks2, current_entry := some chosen }
      | .broken => .nullDeref
      | .blocked =>
        match bwait with
        | none => .fatalError
        | some (tid, st) =>
          match lookupT s.tid_to_entry tid with
          | none => .nullDeref
          | some _ =>
            .ok tid true
              { s with
                tid_to_entry := adjustT s.tid_to_entry tid (fun c => { c with status := st }),
                current_entry := some tid }

/-- Steps 3–5: the budget-exceeded cursor advance (`ctx &&
ctx->switch_counter < 0`), then the scan and fallback.  Expects the
cursor already bootstrapped and the non-switchable short-circuit not
taken. -/
def selectPrecommit (s : SchedState) (max_events : Int) (ctx : Option Nat)
    (poll : Nat → Option Int) (bwait : Option (Nat × Int)) : SchedOutcome :=
  match s.current_entry with
  | none => .nullDeref
  | some cu =>
    match ctx with
    | some ct =>
      match lookupT s.tid_to_entry ct with
      | none => .nullDeref
      | some c =>
        if c.switch_counter < 0 then
          scanAndFallback
            { s with
              current_entry := some (ringNext s.ring cu),
              tid_to_entry := adjustT s.tid_to_entry ct
                (fun c2 => { c2 with switch_counter := max_events }) }
            poll bwait
        else scanAndFallback s poll bwait
    | none => scanAndFallback s poll bwait

/-- Step 6 applied to a pre-commit outcome: `note_switch(ctx, next_ctx,
max_events)` on the selected task (the cursor was already set to the
selected entry by the scan/fallback). -/
def commitP (ctx : Option Nat) (max_events : Int) : SchedOutcome → SchedOutcome
  | .ok chosen bw s =>
    .ok chosen bw { s with tid_to_entry := note_switch s.tid_to_entry ctx chosen max_events }
  | e => e

/-- `rec_sched_get_active_thread`: select the next task to run.  `ctx`
is the caller's current task (`none` for NULL), `max_events` comes from
`flags->max_events`, `poll` is `sys_waitpid_nonblock` and `bwait` the
blocking `waitpid(-1, ...)` oracle.  A supplied `ctx` whose tid is not
live is a dangling pointer read, modelled as `nullDeref`.  The C code
performs the cursor bootstrap before testing `ctx->switchable`; the
bootstrap writes only `current_entry`, which that test does not read,
so it is applied here on each branch (the short-circuit return carries
the bootstrapped cursor, exactly as in C). -/
def rec_sched_get_active_thread (s : SchedState) (max_events : Int)
    (ctx : Option Nat) (poll : Nat → Option Int)
    (bwait : Option (Nat × Int)) : SchedOutcome :=
  match ctx with
  | some ct =>
    match lookupT s.tid_to_entry ct with
    | none => .nullDeref
    | some c =>
      if c.switchable = false then .ok ct false (bootstrapCursor s)
      else commitP ctx max_events
        (selectPrecommit (bootstrapCursor s) max_events ctx poll bwait)
  | none =>
    commitP ctx max_events
      (selectPrecommit (bootstrapCursor s) max_events ctx poll bwait)

/-- A freshly `sys_malloc_zero`ed entry with the fields
`rec_sched_register_thread` assigns: `RUNNABLE`, status 0, `rec_tid =
tid = child`, desched fds -1; every other field stays zeroed.  The fd
returned by `sys_open_child_mem` is external state; it is modelled as
0. -/
def newContext (child : Nat) : Context :=
  { tid := child, rec_tid := child, exec_state := .RUNNABLE, status := 0,
    switchable := false, switch_counter := 0, child_mem_fd := 0,
    desched_fd := -1, desched_fd_child := -1,
    syscallbuf_lib_start := 0, syscallbuf_lib_end := 0 }

/-- Shared tail of `rec_sched_register_thread`: `CIRCLEQ_INSERT_TAIL`,
`num_active_threads++`, `tid_to_entry[child] = entry`.  The ptrace and
hpc calls touch no scheduler state. -/
def registerFinish (s : SchedState) (child : Nat) (c : Context) : StateOutcome :=
  .ok { ring := s.ring ++ [child],
        tid_to_entry := setSlot s.tid_to_entry child c,
        current_entry := s.current_entry,
        num_active_threads := s.num_active_threads + 1 }

/-- `rec_sched_register_thread`.  The `assert(child > 0 && child <
MAX_TID)` is `assertFail` when violated.  A non-zero `parent` is
resolved through `get_task`; the code dereferences the result without a
NULL check when copying the syscallbuf region, so an unknown parent is
`nullDeref`. -/
def rec_sched_register_thread (s : SchedState) (parent child : Nat) : StateOutcome :=
  if ¬(0 < child ∧ child < MAX_TID) then .assertFail
  else if parent ≠ 0 then
    match lookupT s.tid_to_entry parent with
    | none => .nullDeref
    | some pc =>
      registerFinish s child
        { newContext child with
          syscallbuf_lib_start := pc.syscallbuf_lib_start,
          syscallbuf_lib_end := pc.syscallbuf_lib_end }
  else registerFinish s child (newContext child)

/-- Shared tail of `rec_sched_deregister_thread`: `CIRCLEQ_REMOVE`,
clear the index slot, `num_active_threads--` with its
`assert(num_active_threads >= 0)`.  The hpc/fd cleanup and ptrace
detach touch no scheduler state. -/
def deregRemove (s : SchedState) (tid : Nat) : StateOutcome :=
  if s.num_active_threads - 1 < 0 then .assertFail
  else
    .ok { ring := eraseFirst tid s.ring,
          tid_to_entry := eraseSlot s.tid_to_entry tid,
          current_entry := s.current_entry,
          num_active_threads := s.num_active_threads - 1 }

/-- `rec_sched_deregister_thread`.  If the task owns the cursor, the
cursor is advanced to the ring successor first; if the successor is the
entry itself the code asserts `num_active_threads == 1` and nulls the
cursor.  Deregistering a tid with no index entry operates on a NULL
entry (`nullDeref`). -/
def rec_sched_deregister_thread (s : SchedState) (tid : Nat) : StateOutcome :=
  match lookupT s.tid_to_entry tid with
  | none => .nullDeref
  | some _ =>
    if s.current_entry = some tid then
      let nx := ringNext s.ring tid
      if nx = tid then
        if s.num_active_threads = 1 then
          deregRemove { s with current_entry := none } tid
        else .assertFail
      else deregRemove { s with current_entry := some nx } tid
    else deregRemove s tid

/-- The `while (!CIRCLEQ_EMPTY(&head))` loop of `rec_sched_exit_all`,
with explicit fuel: each iteration sends `SIGINT` to the head task
(recorded in the returned kill log) and deregisters it.  `none` models
the loop not terminating within the fuel, which cannot happen from a
well-formed state. -/
def exitGo : Nat → SchedState → Option (List Nat × StateOutcome)
  | 0, s =>
    match s.ring with
    | [] => some ([], .ok s)
    | _ :: _ => none
  | f + 1, s =>
    match s.ring with
    | [] => some ([], .ok s)
    | t :: _ =>
      match rec_sched_deregister_thread s t with
      | .ok s2 => (exitGo f s2).map (fun p => (t :: p.1, p.2))
      | .assertFail => some ([t], .assertFail)
      | .nullDeref => some ([t], .nullDeref)

/-- `rec_sched_exit_all`: kill-and-deregister until the ring is empty.
Returns the list of signalled tids in order, and the final state. -/
def rec_sched_exit_all (s : SchedState) : Option (List Nat × StateOutcome) :=
  exitGo s.ring.length s

/-- `rec_sched_get_num_threads`. -/
def rec_sched_get_num_threads (s : SchedState) : Int :=
  s.num_active_threads

/-- The initial scheduler state: the statics of `rec_sched.c` as
zero-initialized at program start. -/
def emptySched : SchedState :=
  { ring := [], tid_to_entry := [], current_entry := none, num_active_threads := 0 }

/-- A lifecycle operation, for reasoning about call sequences. -/
inductive SchedOp where
  | reg (parent child : Nat)
  | dereg (tid : Nat)
deriving DecidableEq

/-- Apply one lifecycle operation. -/
def applyOp (s : SchedState) : SchedOp → StateOutcome
  | .reg p c => rec_sched_register_thread s p c
  | .dereg t => rec_sched_deregister_thread s t

/-- Run a sequence of lifecycle operations, stopping at the first
abnormal outcome. -/
def runOps : SchedState → List SchedOp → StateOutcome
  | s, [] => .ok s
  | s, op :: rest =>
    match applyOp s op with
    | .ok s2 => runOps s2 rest
    | e => e

/-- An operation respecting the interface contract: `register` is
called with an in-bounds, not-yet-live child id and a parent that is 0
or live; `deregister` is called once per live task. -/
def validOp (s : SchedState) : SchedOp → Bool
  | .reg p c =>
    decide (0 < c) && decide (c < MAX_TID) && (lookupT s.tid_to_entry c).isNone &&
      (decide (p = 0) || (lookupT s.tid_to_entry p).isSome)
  | .dereg t => (lookupT s.tid_to_entry t).isSome

/-- A whole call sequence respecting the interface contract. -/
def validFrom : SchedState → List SchedOp → Bool
  | _, [] => true
  | s, op :: rest =>
    validOp s op &&
      (match applyOp s op with
       | .ok s2 => validFrom s2 rest
       | _ => false)

/-- The cursor, when set, points at a ring member. -/
def cursorIn (s : SchedState) : Bool :=
  match s.current_entry with
  | none => true
  | some t => s.ring.contains t

/-- Well-formedness of the scheduler state: the index slots list
exactly the ring's tids in ring order, live tids are pairwise distinct,
the active count equals the ring size, and the cursor (if set) points
into the ring.  Holds initially and is preserved by every contractual
lifecycle operation. -/
def WF (s : SchedState) : Prop :=
  s.tid_to_entry.map Prod.fst = s.ring ∧ s.ring.Nodup ∧
    s.num_active_threads = (s.ring.length : Int) ∧ cursorIn s = true

/-- A non-blocking poll oracle that never reports a state change. -/
def pollNone : Nat → Option Int := fun _ => none

/-- Every live task is runnable and switchable (the standing hypothesis
of the fairness claim). -/
def allRunSw (l : List (Nat × Context)) : Bool :=
  l.all (fun kc => decide (kc.2.exec_state = ExecState.RUNNABLE) && kc.2.switchable)

/-- The recorder running task `t` until it exhausts its event budget:
the hardware counter drives `switch_counter` below zero (external to
this component; the scheduler itself only ever decrements it by one at
commit). -/
def forceNegative (s : SchedState) (t : Nat) : SchedState :=
  { s with
    tid_to_entry := adjustT s.tid_to_entry t
      (fun c => { c with switch_counter := -1 }) }

/-- The tids chosen by `n` successive `rec_sched_get_active_thread`
calls in which the current task has exhausted its budget before each
call (the regime in which the scheduler actually switches). -/
def exhaustedSelections (max_events : Int) : SchedState → Nat → List Nat
  | _, 0 => []
  | s, n + 1 =>
    match s.current_entry with
    | none => []
    | some cu =>
      match rec_sched_get_active_thread (forceNegative s cu) max_events (some cu)
          pollNone none with
      | .ok t _ s2 => t :: exhaustedSelections max_events s2 n
      | _ => []

/-- A live, runnable, switchable record with tid `t` and event budget
`n`, as used by the concrete scenarios. -/
def ctxRun (t : Nat) (n : Int) : Context :=
  { newContext t with switchable := true, switch_counter := n }

/-- A live record blocked in a syscall. -/
def ctxSys (t : Nat) (n : Int) : Context :=
  { ctxRun t n with exec_state := .PROCESSING_SYSCALL }

theorem lookupT_adjustT_self (l : List (Nat × Context)) (t : Nat)
    (f : Context → Context) : lookupT (adjustT l t f) t = (lookupT l t).map f := by
  induction l with
  | nil => rfl
  | cons kc rest ih =>
    obtain ⟨k, c⟩ := kc
    by_cases hk : k = t
    · subst hk
      simp [adjustT, lookupT]
    · simpa [adjustT, lookupT, hk] using ih

theorem lookupT_adjustT_ne (l : List (Nat × Context)) (t u : Nat)
    (f : Context → Context) (h : u ≠ t) :
    lookupT (adjustT l t f) u = lookupT l u := by
  induction l with
  | nil => rfl
  | cons kc rest ih =>
    obtain ⟨k, c⟩ := kc
    by_cases hu : k = u
    · subst hu
      simp [adjustT, lookupT, h]
    · simpa [adjustT, lookupT, hu] using ih

theorem adjustT_keys (l : List (Nat × Context)) (t : Nat) (f : Context → Context) :
    (adjustT l t f).map Prod.fst = l.map Prod.fst := by
  induction l with
  | nil => rfl
  | cons kc rest ih =>
    simp only [adjustT, List.map_map, List.map_cons] at ih ⊢
    simp [ih]

theorem lookupT_isSome_iff (l : List (Nat × Context)) (t : Nat) :
    (lookupT l t).isSome = true ↔ t ∈ l.map Prod.fst := by
  induction l with
  | nil => simp [lookupT]
  | cons kc rest ih =>
    obtain ⟨k, c⟩ := kc
    by_cases hk : k = t
    · subst hk
      simp [lookupT]
    · simp [lookupT, hk, Ne.symm hk, ih]

theorem lookupT_eq_none_iff (l : List (Nat × Context)) (t : Nat) :
    lookupT l t = none ↔ t ∉ l.map Prod.fst := by
  rw [← lookupT_isSome_iff]
  cases lookupT l t <;> simp

theorem lookupT_mem (l : List (Nat × Context)) (t : Nat) (c : Context)
    (h : lookupT l t = some c) : (t, c) ∈ l := by
  induction l with
  | nil => simp [lookupT] at h
  | cons kc rest ih =>
    obtain ⟨k, c0⟩ := kc
    by_cases hk : k = t
    · subst hk
      simp [lookupT] at h
      simp [h]
    · simp [lookupT, hk] at h
      exact List.mem_cons_of_mem _ (ih h)

theorem idxOf_lt_length (t : Nat) (l : List Nat) (h : t ∈ l) :
    idxOf t l < l.length := by
  induction l with
  | nil => simp at h
  | cons x xs ih =>
    by_cases hx : x = t
    · simp [idxOf, hx]
    · rcases List.mem_cons.mp h with h1 | h2
      · exact absurd h1.symm hx
      · simp only [idxOf, hx, if_false, List.length_cons]
        exact Nat.succ_lt_succ (ih h2)

theorem ringAt_idxOf (t : Nat) (l : List Nat) (h : t ∈ l) :
    ringAt l (idxOf t l) = t := by
  induction l with
  | nil => simp at h
  | cons x xs ih =>
    by_cases hx : x = t
    · simp [idxOf, ringAt, hx]
    · rcases List.mem_cons.mp h with h1 | h2
      · exact absurd h1.symm hx
      · simp only [idxOf, hx, if_false]
        exact ih h2

theorem ringAt_mem (l : List Nat) : ∀ i : Nat, i < l.length → ringAt l i ∈ l := by
  induction l with
  | nil => intro i h; simp at h
  | cons x xs ih =>
    intro i h
    cases i with
    | zero => simp [ringAt]
    | succ j =>
      simp only [ringAt]
      exact List.mem_cons_of_mem _ (ih j (Nat.lt_of_succ_lt_succ h))

theorem idxOf_ringAt (l : List Nat) :
    ∀ i : Nat, l.Nodup → i < l.length → idxOf (ringAt l i) l = i := by
  induction l with
  | nil => intro i _ h; simp at h
  | cons x xs ih =>
    intro i hn h
    cases i with
    | zero => simp [ringAt, idxOf]
    | succ j =>
      have hj : j < xs.length := Nat.lt_of_succ_lt_succ h
      have hmem : ringAt xs j ∈ xs := ringAt_mem xs j hj
      have hx : x ≠ ringAt xs j := by
        intro he
        exact (List.nodup_cons.mp hn).1 (he ▸ hmem)
      simp only [ringAt, idxOf, hx, if_false]
      exact congrArg (· + 1) (ih j (List.nodup_cons.mp hn).2 hj)

theorem ringAt_inj (l : List Nat) (i j : Nat) (hn : l.Nodup)
    (hi : i < l.length) (hj : j < l.length) (h : ringAt l i = ringAt l j) :
    i = j := by
  have := idxOf_ringAt l i hn hi
  rw [h, idxOf_ringAt l j hn hj] at this
  exact this.symm

theorem ringNext_mem (l : List Nat) (t : Nat) (h : l ≠ []) :
    ringNext l t ∈ l := by
  have hlen : 0 < l.length := List.length_pos.mpr h
  exact ringAt_mem l _ (Nat.mod_lt _ hlen)

theorem ringNext_eq_self_iff (l : List Nat) (t : Nat) (hn : l.Nodup) (h : t ∈ l) :
    ringNext l t = t ↔ l.length = 1 := by
  have hlen : 0 < l.length := List.length_pos.mpr (List.ne_nil_of_mem h)
  have hidx : idxOf t l < l.length := idxOf_lt_length t l h
  constructor
  · intro he
    have h2 : ringAt l ((idxOf t l + 1) % l.length) = ringAt l (idxOf t l) := by
      rw [ringAt_idxOf t l h]
      exact he
    have h3 : (idxOf t l + 1) % l.length = idxOf t l :=
      ringAt_inj l _ _ hn (Nat.mod_lt _ hlen) hidx h2
    rcases Nat.lt_or_ge (idxOf t l + 1) l.length with hlt | hge
    · rw [Nat.mod_eq_of_lt hlt] at h3
      omega
    · have : idxOf t l + 1 = l.length := by omega
      rw [this, Nat.mod_self] at h3
      omega
  · intro h1
    have : idxOf t l = 0 := by omega
    simp only [ringNext, this, h1]
    have : ringAt l 0 = ringAt l (idxOf t l) := by rw [this]
    rw [Nat.mod_self]
    rw [this, ringAt_idxOf t l h]

theorem eraseFirst_not_mem (t : Nat) (l : List Nat) (h : t ∉ l) :
    eraseFirst t l = l := by
  induction l with
  | nil => rfl
  | cons x xs ih =>
    have hx : x ≠ t := fun he => h (by simp [he])
    have hxs : t ∉ xs := fun hm => h (List.mem_cons_of_mem _ hm)
    simp [eraseFirst, hx, ih hxs]

theorem filter_ne_not_mem (t : Nat) (l : List Nat) (h : t ∉ l) :
    l.filter (fun x => x ≠ t) = l := by
  rw [List.filter_eq_self]
  intro a ha
  have hne : a ≠ t := fun he => h (he ▸ ha)
  simp [hne]

theorem eraseFirst_eq_filter (t : Nat) (l : List Nat) (hn : l.Nodup) :
    eraseFirst t l = l.filter (fun x => x ≠ t) := by
  induction l with
  | nil => rfl
  | cons x xs ih =>
    rcases List.nodup_cons.mp hn with ⟨hx, hxs⟩
    by_cases he : x = t
    · subst he
      have h1 : eraseFirst x (x :: xs) = xs := by simp [eraseFirst]
      have h2 : (x :: xs).filter (fun y => y ≠ x) = xs := by
        rw [List.filter_cons_of_neg (by simp)]
        exact filter_ne_not_mem x xs hx
      rw [h1, h2]
    · simp [eraseFirst, List.filter, he, ih hxs]

theorem length_eraseFirst (t : Nat) (l : List Nat) (h : t ∈ l) :
    (eraseFirst t l).length + 1 = l.length := by
  induction l with
  | nil => simp at h
  | cons x xs ih =>
    by_cases he : x = t
    · simp [eraseFirst, he]
    · rcases List.mem_cons.mp h with h1 | h2
      · exact absurd h1.symm he
      · simp only [eraseFirst, he, if_false, List.length_cons]
        rw [← ih h2]

theorem mem_eraseFirst (t u : Nat) (l : List Nat) (hu : u ∈ l) (hne : u ≠ t) :
    u ∈ eraseFirst t l := by
  induction l with
  | nil => simp at hu
  | cons x xs ih =>
    by_cases he : x = t
    · subst he
      rcases List.mem_cons.mp hu with h1 | h2
      · exact absurd h1 hne
      · simpa [eraseFirst] using h2
    · rcases List.mem_cons.mp hu with h1 | h2
      · simp [eraseFirst, he, h1]
      · simp [eraseFirst, he]
        exact Or.inr (ih h2)

theorem eraseSlot_keys (l : List (Nat × Context)) (t : Nat) :
    (eraseSlot l t).map Prod.fst = (l.map Prod.fst).filter (fun x => x ≠ t) := by
  induction l with
  | nil => rfl
  | cons kc rest ih =>
    obtain ⟨k, c⟩ := kc
    by_cases he : k = t
    · simp [eraseSlot, List.filter, he] at ih ⊢
      exact ih
    · simp [eraseSlot, List.filter, he] at ih ⊢
      exact ih

theorem setSlot_fresh (l : List (Nat × Context)) (t : Nat) (c : Context)
    (h : lookupT l t = none) : setSlot l t c = l ++ [(t, c)] := by
  simp [setSlot, h]

theorem cursorIn_mem (s : SchedState) (t : Nat) (hw : cursorIn s = true)
    (hc : s.current_entry = some t) : t ∈ s.ring := by
  rw [cursorIn, hc] at hw
  simpa using hw

theorem allRunSw_lookup (l : List (Nat × Context)) (t : Nat) (c : Context)
    (ha : allRunSw l = true) (hl : lookupT l t = some c) :
    c.exec_state = ExecState.RUNNABLE ∧ c.switchable = true := by
  have hmem : (t, c) ∈ l := lookupT_mem l t c hl
  have := (List.all_eq_true.mp ha) _ hmem
  simp at this
  exact this

theorem allRunSw_adjustT (l : List (Nat × Context)) (t : Nat)
    (f : Context → Context)
    (hf : ∀ c, (f c).exec_state = c.exec_state ∧ (f c).switchable = c.switchable) :
    allRunSw l = true → allRunSw (adjustT l t f) = true := by
  induction l with
  | nil => intro _; rfl
  | cons kc rest ih =>
    intro ha
    simp only [allRunSw, adjustT, List.map_cons, List.all_cons, Bool.and_eq_true,
      decide_eq_true_eq] at ha ⊢
    obtain ⟨h1, h2⟩ := ha
    refine ⟨?_, ih h2⟩
    by_cases he : kc.1 = t
    · simp only [he, if_true, eq_self_iff_true]
      rcases hf kc.2 with ⟨e1, e2⟩
      rw [e1, e2]
      exact h1
    · simp only [if_neg he]
      exact h1

theorem cursorIn_iff (s : SchedState) :
    cursorIn s = true ↔ ∀ t, s.current_entry = some t → t ∈ s.ring := by
  constructor
  · intro hw t ht
    exact cursorIn_mem s t hw ht
  · intro h
    rw [cursorIn]
    cases hc : s.current_entry with
    | none => rfl
    | some t => simpa using h t hc

theorem register_valid_ok (s : SchedState) (p c : Nat) (h1 : 0 < c)
    (h2 : c < MAX_TID) (h3 : lookupT s.tid_to_entry c = none)
    (h4 : p = 0 ∨ (lookupT s.tid_to_entry p).isSome = true) :
    ∃ cnew : Context, rec_sched_register_thread s p c = .ok
      { ring := s.ring ++ [c],
        tid_to_entry := s.tid_to_entry ++ [(c, cnew)],
        current_entry := s.current_entry,
        num_active_threads := s.num_active_threads + 1 } := by
  have hb : ¬¬(0 < c ∧ c < MAX_TID) := not_not_intro (And.intro h1 h2)
  rcases h4 with hp | hp
  · refine ⟨newContext c, ?_⟩
    simp [rec_sched_register_thread, hb, hp, registerFinish, setSlot_fresh _ _ _ h3]
  · rcases Option.isSome_iff_exists.mp hp with ⟨pc, hpc⟩
    by_cases hp0 : p = 0
    · refine ⟨newContext c, ?_⟩
      simp [rec_sched_register_thread, hb, hp0, registerFinish, setSlot_fresh _ _ _ h3]
    · refine ⟨{ newContext c with
          syscallbuf_lib_start := pc.syscallbuf_lib_start,
          syscallbuf_lib_end := pc.syscallbuf_lib_end }, ?_⟩
      simp [rec_sched_register_thread, hb, hp0, hpc, registerFinish,
        setSlot_fresh _ _ _ h3]

theorem WF_register (s : SchedState) (c : Nat) (cnew : Context) (hwf : WF s)
    (h3 : lookupT s.tid_to_entry c = none) :
    WF { ring := s.ring ++ [c],
         tid_to_entry := s.tid_to_entry ++ [(c, cnew)],
         current_entry := s.current_entry,
         num_active_threads := s.num_active_threads + 1 } := by
  obtain ⟨hk, hn, hc, hcur⟩ := hwf
  have hnotin : c ∉ s.ring := by
    rw [← hk]
    exact (lookupT_eq_none_iff _ _).mp h3
  refine ⟨?_, ?_, ?_, ?_⟩
  · simp [hk]
  · simp only [List.nodup_append]
    refine ⟨hn, List.nodup_singleton c, ?_⟩
    intro a ha hb
    have hac : a = c := by simpa using hb
    exact hnotin (hac ▸ ha)
  · simp only [List.length_append, List.length_singleton]
    push_cast
    omega
  · rw [cursorIn_iff]
    intro t ht
    simp only at ht
    have := (cursorIn_iff s).mp hcur t ht
    simp [this]

theorem dereg_ok (s : SchedState) (t : Nat) (c : Context) (hwf : WF s)
    (hl : lookupT s.tid_to_entry t = some c) :
    rec_sched_deregister_thread s t = .ok
      { ring := eraseFirst t s.ring,
        tid_to_entry := eraseSlot s.tid_to_entry t,
        current_entry :=
          if s.current_entry = some t then
            (if s.ring.length = 1 then none else some (ringNext s.ring t))
          else s.current_entry,
        num_active_threads := s.num_active_threads - 1 } := by
  obtain ⟨hk, hn, hc, hcur⟩ := hwf
  have hmem : t ∈ s.ring := by
    rw [← hk]
    exact (lookupT_isSome_iff _ _).mp (by simp [hl])
  have hlen : 0 < s.ring.length := List.length_pos.mpr (List.ne_nil_of_mem hmem)
  have hnum : ¬(s.num_active_threads - 1 < 0) := by
    rw [hc]
    omega
  simp only [rec_sched_deregister_thread, hl]
  by_cases hcu : s.current_entry = some t
  · simp only [hcu, if_pos rfl]
    by_cases hx : ringNext s.ring t = t
    · have h1 : s.ring.length = 1 := (ringNext_eq_self_iff s.ring t hn hmem).mp hx
      have h1' : s.num_active_threads = 1 := by rw [hc, h1]; rfl
      simp [hx, h1, h1', deregRemove, hnum]
    · have h1 : s.ring.length ≠ 1 := fun he =>
        hx ((ringNext_eq_self_iff s.ring t hn hmem).mpr he)
      simp [hx, h1, deregRemove, hnum]
  · simp [hcu, deregRemove, hnum]

theorem WF_dereg (s : SchedState) (t : Nat) (hwf : WF s) (hmem : t ∈ s.ring) :
    WF { ring := eraseFirst t s.ring,
         tid_to_entry := eraseSlot s.tid_to_entry t,
         current_entry :=
           if s.current_entry = some t then
             (if s.ring.length = 1 then none else some (ringNext s.ring t))
           else s.current_entry,
         num_active_threads := s.num_active_threads - 1 } := by
  obtain ⟨hk, hn, hc, hcur⟩ := hwf
  have herase : eraseFirst t s.ring = s.ring.filter (fun x => x ≠ t) :=
    eraseFirst_eq_filter t s.ring hn
  refine ⟨?_, ?_, ?_, ?_⟩
  · rw [eraseSlot_keys, hk, herase]
  · rw [herase]
    exact hn.filter _
  · have := length_eraseFirst t s.ring hmem
    simp only [hc]
    omega
  · rw [cursorIn_iff]
    intro u hu
    simp only at hu
    by_cases hcu : s.current_entry = some t
    · rw [if_pos hcu] at hu
      by_cases h1 : s.ring.length = 1
      · rw [if_pos h1] at hu
        exact absurd hu (by simp)
      · rw [if_neg h1] at hu
        have hu' : u = ringNext s.ring t := by
          injection hu with hu'
          exact hu'.symm
        have humem : u ∈ s.ring := by
          rw [hu']
          exact ringNext_mem s.ring t (List.ne_nil_of_mem hmem)
        have hune : u ≠ t := by
          rw [hu']
          intro he
          exact h1 ((ringNext_eq_self_iff s.ring t hn hmem).mp he)
        exact mem_eraseFirst t u s.ring humem hune
    · rw [if_neg hcu] at hu
      have humem : u ∈ s.ring := (cursorIn_iff s).mp hcur u hu
      have hune : u ≠ t := fun he => hcu (he ▸ hu)
      exact mem_eraseFirst t u s.ring humem hune

theorem bootstrap_tasks (s : SchedState) :
    (bootstrapCursor s).tid_to_entry = s.tid_to_entry := by
  rw [bootstrapCursor]
  cases s.current_entry <;> rfl

theorem bootstrap_ring (s : SchedState) : (bootstrapCursor s).ring = s.ring := by
  rw [bootstrapCursor]
  cases s.current_entry <;> rfl

theorem bootstrap_num (s : SchedState) :
    (bootstrapCursor s).num_active_threads = s.num_active_threads := by
  rw [bootstrapCursor]
  cases s.current_entry <;> rfl

theorem bootstrap_of_some (s : SchedState) (cu : Nat)
    (h : s.current_entry = some cu) : bootstrapCursor s = s := by
  rw [bootstrapCursor, h]

theorem commitP_ok_inv (ctx : Option Nat) (max_events : Int)
    (pre : SchedOutcome) (chosen : Nat) (bw : Bool) (s' : SchedState)
    (h : commitP ctx max_events pre = .ok chosen bw s') :
    ∃ smid, pre = .ok chosen bw smid ∧
      s' = { smid with
             tid_to_entry := note_switch smid.tid_to_entry ctx chosen max_events } := by
  cases pre with
  | ok c2 b2 sm =>
    simp only [commitP, SchedOutcome.ok.injEq] at h
    obtain ⟨h1, h2, h3⟩ := h
    subst h1
    subst h2
    exact ⟨sm, rfl, h3.symm⟩
  | fatalError => simp [commitP] at h
  | nullDeref => simp [commitP] at h

theorem note_switch_lookup_chosen (tasks : List (Nat × Context))
    (prev : Option Nat) (chosen : Nat) (max_events : Int) :
    lookupT (note_switch tasks prev chosen max_events) chosen
      = (lookupT tasks chosen).map (fun c =>
          { c with switch_counter :=
              if prev = some chosen then c.switch_counter - 1 else max_events }) := by
  by_cases hp : prev = some chosen
  · simp [note_switch, hp, lookupT_adjustT_self]
  · simp [note_switch, hp, lookupT_adjustT_self]

theorem note_switch_lookup_other (tasks : List (Nat × Context))
    (prev : Option Nat) (chosen : Nat) (max_events : Int) (u : Nat)
    (hu : u ≠ chosen) :
    lookupT (note_switch tasks prev chosen max_events) u = lookupT tasks u := by
  by_cases hp : prev = some chosen <;>
    simp [note_switch, hp, lookupT_adjustT_ne _ _ _ _ hu]

/-- C1: for every call to `rec_sched_get_active_thread` that commits a
selected task (does not take the non-switchable short-circuit and
returns normally), the commit step (`note_switch`) updates exactly the
selected task's budget: decrement by one if the selected task is the
supplied `ctx` itself, reset to `max_events` otherwise; every other
task's record is untouched by the commit step (`smid` is the scheduler
state right before commit). -/
theorem select_commit_budget (s : SchedState) (max_events : Int)
    (ctx : Option Nat) (poll : Nat → Option Int) (bwait : Option (Nat × Int))
    (chosen : Nat) (bw : Bool) (s' : SchedState)
    (hns : ctx = none ∨ ∃ ct c, ctx = some ct ∧
      lookupT s.tid_to_entry ct = some c ∧ c.switchable = true)
    (hok : rec_sched_get_active_thread s max_events ctx poll bwait = .ok chosen bw s') :
    ∃ smid, selectPrecommit (bootstrapCursor s) max_events ctx poll bwait
        = .ok chosen bw smid ∧
      s'.tid_to_entry = note_switch smid.tid_to_entry ctx chosen max_events ∧
      lookupT s'.tid_to_entry chosen = (lookupT smid.tid_to_entry chosen).map
        (fun c => { c with switch_counter :=
                      if ctx = some chosen then c.switch_counter - 1 else max_events }) ∧
      (∀ u, u ≠ chosen → lookupT s'.tid_to_entry u = lookupT smid.tid_to_entry u) := by
  have hcommit : commitP ctx max_events
      (selectPrecommit (bootstrapCursor s) max_events ctx poll bwait)
      = .ok chosen bw s' := by
    rcases hns with hn | ⟨ct, c, hct, hl, hsw⟩
    · rw [← hok, hn, rec_sched_get_active_thread]
    · rw [← hok, hct]
      simp [rec_sched_get_active_thread, hl, hsw]
  obtain ⟨smid, hpre, hs'⟩ := commitP_ok_inv _ _ _ _ _ _ hcommit
  refine ⟨smid, hpre, ?_, ?_, ?_⟩
  · rw [hs']
  · rw [hs']
    exact note_switch_lookup_chosen _ _ _ _
  · intro u hu
    rw [hs']
    exact note_switch_lookup_other _ _ _ _ _ hu

/-- Concrete two-task state: tasks 1 and 2, both runnable and
switchable with budget 10, cursor at task 1. -/
def stAB : SchedState :=
  { ring := [1, 2],
    tid_to_entry := [(1, ctxRun 1 10), (2, ctxRun 2 10)],
    current_entry := some 1, num_active_threads := 2 }

/-- State `stAB` after one reselection of task 1 (budget 10 → 9). -/
def stAB1 : SchedState :=
  { stAB with tid_to_entry := [(1, ctxRun 1 9), (2, ctxRun 2 10)] }

/-- Witness for C1 at a concrete input: reselecting task 1 from `stAB`
commits task 1 with its budget decremented from 10 to 9. -/
theorem select_commit_budget_witness :
    rec_sched_get_active_thread stAB 10 (some 1) pollNone none
      = .ok 1 false stAB1 ∧
    (∃ smid, selectPrecommit (bootstrapCursor stAB) 10 (some 1) pollNone none
        = .ok 1 false smid ∧
      stAB1.tid_to_entry = note_switch smid.tid_to_entry (some 1) 1 10 ∧
      lookupT stAB1.tid_to_entry 1 = (lookupT smid.tid_to_entry 1).map
        (fun c => { c with switch_counter :=
                      if (some 1 : Option Nat) = some 1 then c.switch_counter - 1 else 10 }) ∧
      (∀ u, u ≠ 1 → lookupT stAB1.tid_to_entry u = lookupT smid.tid_to_entry u)) :=
  ⟨by decide, select_commit_budget stAB 10 (some 1) pollNone none 1 false stAB1
    (Or.inr ⟨1, ctxRun 1 10, rfl, rfl, rfl⟩) (by decide)⟩

/-- C2: a supplied non-switchable `ctx` short-circuits the whole
selection: the call returns `ctx` itself with `by_waitpid = false`, for
every ring, every poll oracle and every blocking-wait oracle (so no
budget update, no scan and no wait-backend interaction can influence
the result); the only state change is the cursor bootstrap, which
leaves tasks, ring and count untouched. -/
theorem select_nonswitchable_shortcircuit (s : SchedState) (max_events : Int)
    (ct : Nat) (c : Context) (poll : Nat → Option Int) (bwait : Option (Nat × Int))
    (hl : lookupT s.tid_to_entry ct = some c) (hsw : c.switchable = false) :
    rec_sched_get_active_thread s max_events (some ct) poll bwait
      = .ok ct false (bootstrapCursor s) ∧
    (bootstrapCursor s).tid_to_entry = s.tid_to_entry ∧
    (bootstrapCursor s).ring = s.ring ∧
    (bootstrapCursor s).num_active_threads = s.num_active_threads := by
  refine ⟨?_, bootstrap_tasks s, bootstrap_ring s, bootstrap_num s⟩
  simp [rec_sched_get_active_thread, hl, hsw]

/-- Concrete state for the C2 witness: task 1 is non-switchable with a
negative budget, task 2 runnable; cursor at task 2. -/
def stNS : SchedState :=
  { ring := [1, 2],
    tid_to_entry := [(1, { ctxRun 1 (-1) with switchable := false }), (2, ctxRun 2 3)],
    current_entry := some 2, num_active_threads := 2 }

/-- Witness for C2 at a concrete input. -/
theorem select_nonswitchable_shortcircuit_witness :
    lookupT stNS.tid_to_entry 1 = some { ctxRun 1 (-1) with switchable := false } ∧
    ({ ctxRun 1 (-1) with switchable := false } : Context).switchable = false ∧
    (rec_sched_get_active_thread stNS 10 (some 1) pollNone (some (2, 5))
        = .ok 1 false (bootstrapCursor stNS) ∧
      (bootstrapCursor stNS).tid_to_entry = stNS.tid_to_entry ∧
      (bootstrapCursor stNS).ring = stNS.ring ∧
      (bootstrapCursor stNS).num_active_threads = stNS.num_active_threads) :=
  ⟨rfl, rfl, select_nonswitchable_shortcircuit stNS 10 1 _ pollNone (some (2, 5)) rfl rfl⟩

/-- Concrete single-task state, the task blocked in a syscall, used to
drive the selection into the blocking-wait fallback. -/
def stBlk : SchedState :=
  { ring := [1], tid_to_entry := [(1, ctxSys 1 5)],
    current_entry := some 1, num_active_threads := 1 }

/-- C4 evaluated at its failing input: every task is blocked, no
non-blocking poll reports a change, and the blocking wait reports tid
99, which has no entry in the index.  `get_entry(99)` is NULL and the
code dereferences it (`next_ctx->status = status`) without any check —
there is no fatal-error diagnostic path, contrary to the claim. -/
theorem select_wait_unknown_tid_nullDeref :
    lookupT stBlk.tid_to_entry 99 = none ∧
    rec_sched_get_active_thread stBlk 10 none pollNone (some (99, 7))
      = .nullDeref ∧
    rec_sched_get_active_thread stBlk 10 none pollNone (some (1, 7)) ≠ .nullDeref := by
  refine ⟨rfl, by decide, by decide⟩

/-- C9: the selection is deterministic — two calls from identical
scheduler states with identical `max_events`, identical current task
and pointwise-identical wait-backend responses return the same chosen
task, the same `by_waitpid` flag and the same final scheduler state. -/
theorem select_deterministic (s1 s2 : SchedState) (m1 m2 : Int)
    (c1 c2 : Option Nat) (p1 p2 : Nat → Option Int) (b1 b2 : Option (Nat × Int))
    (hs : s1 = s2) (hm : m1 = m2) (hc : c1 = c2) (hp : ∀ t, p1 t = p2 t)
    (hb : b1 = b2) :
    rec_sched_get_active_thread s1 m1 c1 p1 b1
      = rec_sched_get_active_thread s2 m2 c2 p2 b2 := by
  have hpf : p1 = p2 := funext hp
  rw [hs, hm, hc, hpf, hb]

/-- Witness for C9 at a concrete input. -/
theorem select_deterministic_witness :
    rec_sched_get_active_thread stAB 10 (some 1) pollNone none
      = rec_sched_get_active_thread stAB 10 (some 1) (fun t => pollNone t) none :=
  select_deterministic stAB stAB 10 10 (some 1) (some 1) pollNone
    (fun t => pollNone t) none none rfl rfl rfl (fun _ => rfl) rfl

/-- C10: registering a child whose non-zero `parent` does not resolve
through the index dereferences the NULL result of `get_task(parent)`
while copying the syscallbuf region (`parent_ctx->syscallbuf_lib_start`);
the absence case is unguarded. -/
theorem register_unknown_parent_nullDeref (s : SchedState) (p c : Nat)
    (hp : p ≠ 0) (hl : lookupT s.tid_to_entry p = none)
    (h1 : 0 < c) (h2 : c < MAX_TID) :
    rec_sched_register_thread s p c = .nullDeref := by
  simp [rec_sched_register_thread, hp, hl, not_not_intro (And.intro h1 h2)]

/-- Witness for C10 at a concrete input: registering child 4 with
unknown parent 7 in the empty scheduler. -/
theorem register_unknown_parent_nullDeref_witness :
    (7 : Nat) ≠ 0 ∧ lookupT emptySched.tid_to_entry 7 = none ∧
    (0 : Nat) < 4 ∧ (4 : Nat) < MAX_TID ∧
    rec_sched_register_thread emptySched 7 4 = .nullDeref :=
  ⟨by decide, rfl, by decide, by decide,
    register_unknown_parent_nullDeref emptySched 7 4 (by decide) rfl (by decide)
      (by decide)⟩

/-- Concrete state contradicting C3 as stated: task 1 has a negative
budget but is also non-switchable; cursor at task 1. -/
def stC3x : SchedState :=
  { ring := [1, 2],
    tid_to_entry := [(1, { ctxRun 1 (-1) with switchable := false }), (2, ctxRun 2 3)],
    current_entry := some 1, num_active_threads := 2 }

/-- Counterexample to C3 as stated: in `stC3x` the current task 1 has
`event_budget = -1 < 0`, yet the call leaves the scheduler state
completely unchanged — the cursor stays at 1 (its ring successor is 2)
and the budget stays -1 instead of being reset to `max_events = 10` —
because the non-switchable short-circuit fires before the
budget-exceeded advance. -/
theorem select_budget_exceeded_advance_cex :
    (lookupT stC3x.tid_to_entry 1).map Context.switch_counter = some (-1) ∧
    rec_sched_get_active_thread stC3x 10 (some 1) pollNone none
      = .ok 1 false stC3x ∧
    stC3x.current_entry = some 1 ∧ ringNext stC3x.ring 1 = 2 := by
  refine ⟨rfl, by decide, rfl, rfl⟩

/-- C3 (amended with "and its `switchable` flag is true", which the
counterexample forces): when a supplied switchable `ctx` has a negative
budget, the call proceeds as the scan-and-commit applied to the state
whose cursor has been advanced to the ring successor of the cursor and
in which `ctx`'s budget has already been reset to `max_events` — i.e.
the advance and the reset happen before the scan. -/
theorem select_budget_exceeded_advance (s : SchedState) (max_events : Int)
    (ct cu : Nat) (c : Context) (poll : Nat → Option Int)
    (bwait : Option (Nat × Int)) (hcu : s.current_entry = some cu)
    (hl : lookupT s.tid_to_entry ct = some c) (hsw : c.switchable = true)
    (hneg : c.switch_counter < 0) :
    rec_sched_get_active_thread s max_events (some ct) poll bwait
      = commitP (some ct) max_events (scanAndFallback
          { s with
            current_entry := some (ringNext s.ring cu),
            tid_to_entry := adjustT s.tid_to_entry ct
              (fun c2 => { c2 with switch_counter := max_events }) } poll bwait) ∧
    lookupT (adjustT s.tid_to_entry ct
        (fun c2 => { c2 with switch_counter := max_events })) ct
      = some { c with switch_counter := max_events } := by
  have hb : bootstrapCursor s = s := bootstrap_of_some s cu hcu
  constructor
  · simp only [rec_sched_get_active_thread, hl, hsw, hb]
    rw [if_neg (by simp [hsw])]
    simp only [selectPrecommit, hcu, hl, if_pos hneg]
  · rw [lookupT_adjustT_self, hl]
    rfl

/-- Scenario B state: tasks 1, 2, 3 registered in that order, all
runnable and switchable; task 1 is current with exhausted budget -1. -/
def stABC : SchedState :=
  { ring := [1, 2, 3],
    tid_to_entry := [(1, ctxRun 1 (-1)), (2, ctxRun 2 0), (3, ctxRun 3 0)],
    current_entry := some 1, num_active_threads := 3 }

/-- Scenario B outcome: task 2 selected, tasks 1 and 2 both at budget
10, cursor at 2. -/
def stABC2 : SchedState :=
  { stABC with
    tid_to_entry := [(1, ctxRun 1 10), (2, ctxRun 2 10), (3, ctxRun 3 0)],
    current_entry := some 2 }

/-- Witness for C3 at Scenario B: `select_next(A, 10)` with
`A.event_budget = -1` advances past task 1 (A), selects task 2 (B), and
leaves both budgets at 10. -/
theorem select_budget_exceeded_advance_witness :
    (rec_sched_get_active_thread stABC 10 (some 1) pollNone none
        = commitP (some 1) 10 (scanAndFallback
            { stABC with
              current_entry := some (ringNext stABC.ring 1),
              tid_to_entry := adjustT stABC.tid_to_entry 1
                (fun c2 => { c2 with switch_counter := 10 }) } pollNone none) ∧
      lookupT (adjustT stABC.tid_to_entry 1
          (fun c2 => { c2 with switch_counter := 10 })) 1
        = some { ctxRun 1 (-1) with switch_counter := 10 }) ∧
    rec_sched_get_active_thread stABC 10 (some 1) pollNone none
      = .ok 2 false stABC2 ∧
    (lookupT stABC2.tid_to_entry 1).map Context.switch_counter = some 10 ∧
    (lookupT stABC2.tid_to_entry 2).map Context.switch_counter = some 10 :=
  ⟨select_budget_exceeded_advance stABC 10 1 1 (ctxRun 1 (-1)) pollNone none
      rfl rfl rfl (by decide),
    by decide, rfl, rfl⟩

/-- State after registering tid 5 twice: the ring holds two entries for
tid 5 while the index array has a single slot. -/
def dupState : SchedState :=
  { ring := [5, 5], tid_to_entry := [(5, newContext 5)],
    current_entry := none, num_active_threads := 2 }

/-- Counterexample to C7 as stated: the sequence `register(0, 5);
register(0, 5)` is a sequence of register/deregister calls after which
two live ring entries share `task_id` 5 and the ring size (2) differs
from the index size (1) — `register` never checks that the child id is
fresh. -/
theorem register_dereg_invariant_cex :
    runOps emptySched [SchedOp.reg 0 5, SchedOp.reg 0 5] = .ok dupState ∧
    ¬ dupState.ring.Nodup ∧
    dupState.tid_to_entry.length ≠ dupState.ring.length := by
  refine ⟨by decide, by decide, by decide⟩

theorem validFrom_append (l1 l2 : List SchedOp) :
    ∀ s : SchedState, validFrom s (l1 ++ l2) = true → validFrom s l1 = true := by
  induction l1 with
  | nil => intro s _; rfl
  | cons op rest ih =>
    intro s h
    simp only [List.cons_append, validFrom, Bool.and_eq_true] at h ⊢
    obtain ⟨h1, h2⟩ := h
    refine ⟨h1, ?_⟩
    cases happ : applyOp s op with
    | ok s2 =>
      rw [happ] at h2
      exact ih s2 h2
    | assertFail =>
      rw [happ] at h2
      exact h2
    | nullDeref =>
      rw [happ] at h2
      exact h2

theorem WF_empty : WF emptySched :=
  ⟨rfl, List.nodup_nil, rfl, rfl⟩

theorem runOps_WF (ops : List SchedOp) :
    ∀ s : SchedState, WF s → validFrom s ops = true →
      ∃ s2, runOps s ops = .ok s2 ∧ WF s2 := by
  induction ops with
  | nil => intro s hwf _; exact ⟨s, rfl, hwf⟩
  | cons op rest ih =>
    intro s hwf hv
    simp only [validFrom, Bool.and_eq_true] at hv
    obtain ⟨hop, hrest⟩ := hv
    cases op with
    | reg p c =>
      simp only [validOp, Bool.and_eq_true, Bool.or_eq_true, decide_eq_true_eq,
        Option.isNone_iff_eq_none] at hop
      obtain ⟨⟨⟨h1, h2⟩, h3⟩, h4⟩ := hop
      obtain ⟨cnew, heq⟩ := register_valid_ok s p c h1 h2 h3 h4
      have hwf2 := WF_register s c cnew hwf h3
      have happ : applyOp s (SchedOp.reg p c) = .ok _ := heq
      rw [happ] at hrest
      obtain ⟨s3, hrun, hwf3⟩ := ih _ hwf2 hrest
      refine ⟨s3, ?_, hwf3⟩
      simp only [runOps, happ]
      exact hrun
    | dereg t =>
      simp only [validOp] at hop
      obtain ⟨c, hlc⟩ := Option.isSome_iff_exists.mp hop
      have hmem : t ∈ s.ring := by
        rw [← hwf.1]
        exact (lookupT_isSome_iff _ _).mp (by simp [hlc])
      have heq := dereg_ok s t c hwf hlc
      have hwf2 := WF_dereg s t hwf hmem
      have happ : applyOp s (SchedOp.dereg t) = .ok _ := heq
      rw [happ] at hrest
      obtain ⟨s3, hrun, hwf3⟩ := ih _ hwf2 hrest
      refine ⟨s3, ?_, hwf3⟩
      simp only [runOps, happ]
      exact hrun

/-- C7 (amended to contract-respecting call sequences, which the
counterexample forces: every `register` uses an in-bounds child id that
is not currently live and a parent that is 0 or live, every
`deregister` targets a live task): after every prefix of such a
sequence no two live records share a tid, and ring size, index size and
`rec_sched_get_num_threads` all agree. -/
theorem register_dereg_invariant (ops pre suf : List SchedOp) (s2 : SchedState)
    (hsplit : ops = pre ++ suf)
    (hv : validFrom emptySched ops = true)
    (hr : runOps emptySched pre = .ok s2) :
    (s2.tid_to_entry.map Prod.fst).Nodup ∧ s2.ring.Nodup ∧
    s2.tid_to_entry.length = s2.ring.length ∧
    rec_sched_get_num_threads s2 = (s2.ring.length : Int) := by
  have hvpre : validFrom emptySched pre = true :=
    validFrom_append pre suf emptySched (hsplit ▸ hv)
  obtain ⟨s3, hr3, hwf⟩ := runOps_WF pre emptySched WF_empty hvpre
  rw [hr] at hr3
  cases hr3
  obtain ⟨hk, hn, hc, _⟩ := hwf
  refine ⟨hk ▸ hn, hn, ?_, hc⟩
  have := congrArg List.length hk
  simpa using this

/-- State after the valid sequence `register(0,3); register(3,4)`. -/
def st34 : SchedState :=
  { ring := [3, 4], tid_to_entry := [(3, newContext 3), (4, newContext 4)],
    current_entry := none, num_active_threads := 2 }

/-- Witness for C7 at a concrete valid sequence (observation point
after the first two of three operations). -/
theorem register_dereg_invariant_witness :
    ([SchedOp.reg 0 3, SchedOp.reg 3 4, SchedOp.dereg 3]
        = [SchedOp.reg 0 3, SchedOp.reg 3 4] ++ [SchedOp.dereg 3]) ∧
    validFrom emptySched [SchedOp.reg 0 3, SchedOp.reg 3 4, SchedOp.dereg 3] = true ∧
    runOps emptySched [SchedOp.reg 0 3, SchedOp.reg 3 4] = .ok st34 ∧
    ((st34.tid_to_entry.map Prod.fst).Nodup ∧ st34.ring.Nodup ∧
      st34.tid_to_entry.length = st34.ring.length ∧
      rec_sched_get_num_threads st34 = (st34.ring.length : Int)) :=
  ⟨rfl, by decide, by decide,
    register_dereg_invariant [SchedOp.reg 0 3, SchedOp.reg 3 4, SchedOp.dereg 3]
      [SchedOp.reg 0 3, SchedOp.reg 3 4] [SchedOp.dereg 3] st34 rfl (by decide)
      (by decide)⟩

theorem exitGo_WF (r : List Nat) :
    ∀ s : SchedState, s.ring = r → WF s →
      exitGo r.length s = some (r, .ok emptySched) := by
  induction r with
  | nil =>
    intro s hr hwf
    obtain ⟨hk, _, hc, hcur⟩ := hwf
    have htasks : s.tid_to_entry = [] := by
      have : s.tid_to_entry.map Prod.fst = [] := by rw [hk, hr]
      exact List.map_eq_nil_iff.mp this
    have hnum : s.num_active_threads = 0 := by
      rw [hc, hr]
      rfl
    have hcure : s.current_entry = none := by
      cases hce : s.current_entry with
      | none => rfl
      | some t =>
        exfalso
        have := cursorIn_mem s t hcur hce
        rw [hr] at this
        simp at this
    have hs : s = emptySched := by
      cases s
      simp_all [emptySched]
    rw [hs]
    rfl
  | cons t rest ih =>
    intro s hr hwf
    have hmem : t ∈ s.ring := by
      rw [hr]
      simp
    have hl : (lookupT s.tid_to_entry t).isSome = true := by
      rw [lookupT_isSome_iff, hwf.1]
      exact hmem
    obtain ⟨c, hlc⟩ := Option.isSome_iff_exists.mp hl
    obtain ⟨s2, heq, hwf2, hring2⟩ :
        ∃ s2, rec_sched_deregister_thread s t = .ok s2 ∧ WF s2 ∧ s2.ring = rest := by
      refine ⟨_, dereg_ok s t c hwf hlc, WF_dereg s t hwf hmem, ?_⟩
      show eraseFirst t s.ring = rest
      rw [hr]
      simp [eraseFirst]
    have hih := ih s2 hring2 hwf2
    have hstep : exitGo (rest.length + 1) s
        = (exitGo rest.length s2).map (fun p => (t :: p.1, p.2)) := by
      simp only [exitGo, hr, heq]
    show exitGo (rest.length + 1) s = _
    rw [hstep, hih]
    rfl

/-- C8: from any well-formed state, `rec_sched_exit_all` signals the
successive ring heads exactly in ring order (the returned kill log is
the original ring: each iteration signals the current head and
deregisters it, which promotes the next entry to head) and terminates
with the scheduler in its initial empty state: empty ring, empty index,
null cursor, and an active count of zero. -/
theorem exit_all_empties (s : SchedState) (hwf : WF s) :
    rec_sched_exit_all s = some (s.ring, .ok emptySched) ∧
    emptySched.ring = [] ∧ emptySched.tid_to_entry = [] ∧
    emptySched.current_entry = none ∧
    rec_sched_get_num_threads emptySched = 0 :=
  ⟨exitGo_WF s.ring s rfl hwf, rfl, rfl, rfl, rfl⟩

/-- Witness for C8 at a concrete input: terminating the two-task state
`stAB` kills 1 then 2 and leaves the empty scheduler. -/
theorem exit_all_empties_witness :
    WF stAB ∧
    (rec_sched_exit_all stAB = some (stAB.ring, .ok emptySched) ∧
      emptySched.ring = [] ∧ emptySched.tid_to_entry = [] ∧
      emptySched.current_entry = none ∧
      rec_sched_get_num_threads emptySched = 0) := by
  have hw : WF stAB := ⟨rfl, by decide, rfl, rfl⟩
  exact ⟨hw, exit_all_empties stAB hw⟩

/-- The scheduler state right after registering tid `d` into the empty
scheduler. -/
def regState (d : Nat) : SchedState :=
  { ring := [d], tid_to_entry := [(d, newContext d)],
    current_entry := none, num_active_threads := 1 }

/-- `regState d` after the first selection: cursor bootstrapped to `d`,
`d` selected with a fresh budget. -/
def selState (d : Nat) (max_events : Int) : SchedState :=
  { ring := [d],
    tid_to_entry := [(d, { newContext d with switch_counter := max_events })],
    current_entry := some d, num_active_threads := 1 }

/-- C6: deregistering the task the cursor points to repoints the cursor
to the task's ring successor, computed before removal; when that task
is the sole ring member (its successor is itself) the cursor becomes
null instead.  Afterwards, registering a fresh task `d` into the
resulting empty scheduler and selecting with no current task selects
`d`. -/
theorem dereg_cursor_and_reselect :
    (∀ (s : SchedState) (t : Nat) (c : Context), WF s →
      lookupT s.tid_to_entry t = some c → s.current_entry = some t →
      rec_sched_deregister_thread s t = .ok
        { ring := eraseFirst t s.ring,
          tid_to_entry := eraseSlot s.tid_to_entry t,
          current_entry :=
            if s.ring.length = 1 then none else some (ringNext s.ring t),
          num_active_threads := s.num_active_threads - 1 }) ∧
    (∀ (d : Nat) (max_events : Int) (poll : Nat → Option Int)
        (bwait : Option (Nat × Int)), 0 < d → d < MAX_TID →
      rec_sched_register_thread emptySched 0 d = .ok (regState d) ∧
      rec_sched_get_active_thread (regState d) max_events none poll bwait
        = .ok d false (selState d max_events)) := by
  constructor
  · intro s t c hwf hl hcu
    have h := dereg_ok s t c hwf hl
    rw [h, if_pos hcu]
  · intro d max_events poll bwait h1 h2
    constructor
    · simp [rec_sched_register_thread, not_not_intro (And.intro h1 h2),
        registerFinish, setSlot, lookupT, regState, emptySched]
    · have hd : idxOf d [d] = 0 := by simp [idxOf]
      simp [rec_sched_get_active_thread, regState, bootstrapCursor,
        selectPrecommit, scanAndFallback, scanLoop, lookupT, hd, ringAt,
        newContext, commitP, note_switch, adjustT, selState]

/-- Witness for C6 at concrete inputs: deregistering the sole task of
`stBlk` (which owns the cursor) nulls the cursor; registering tid 4
into the empty scheduler and selecting then picks 4. -/
theorem dereg_cursor_and_reselect_witness :
    rec_sched_deregister_thread stBlk 1 = .ok
      { ring := eraseFirst 1 stBlk.ring,
        tid_to_entry := eraseSlot stBlk.tid_to_entry 1,
        current_entry :=
          if stBlk.ring.length = 1 then none else some (ringNext stBlk.ring 1),
        num_active_threads := stBlk.num_active_threads - 1 } ∧
    (if stBlk.ring.length = 1 then none else some (ringNext stBlk.ring 1))
      = (none : Option Nat) ∧
    rec_sched_register_thread emptySched 0 4 = .ok (regState 4) ∧
    rec_sched_get_active_thread (regState 4) 10 none pollNone none
      = .ok 4 false (selState 4 10) := by
  have hw : WF stBlk := ⟨rfl, by decide, rfl, rfl⟩
  have h := dereg_cursor_and_reselect
  exact ⟨h.1 stBlk 1 (ctxSys 1 5) hw rfl rfl, by decide,
    (h.2 4 10 pollNone none (by decide) (by decide)).1,
    (h.2 4 10 pollNone none (by decide) (by decide)).2⟩

/-- `stAB` after a second reselection of task 1 (budget 9 → 8). -/
def stAB2 : SchedState :=
  { stAB with tid_to_entry := [(1, ctxRun 1 8), (2, ctxRun 2 10)] }

/-- Counterexample to C5 as stated: in `stAB` both tasks are always
runnable and switchable and no budget ever goes negative (task 1's
budget moves 10 → 9 → 8), yet two successive calls with current task 1
both select task 1 — task 1 is visited twice before task 2 is visited
at all.  The scan starts at the cursor, and a runnable current task is
immediately re-selected as long as its budget is non-negative. -/
theorem select_round_robin_cex :
    allRunSw stAB.tid_to_entry = true ∧ stAB.ring = [1, 2] ∧
    rec_sched_get_active_thread stAB 10 (some 1) pollNone none
      = .ok 1 false stAB1 ∧
    rec_sched_get_active_thread stAB1 10 (some 1) pollNone none
      = .ok 1 false stAB2 ∧
    (lookupT stAB1.tid_to_entry 1).map Context.switch_counter = some 9 ∧
    (lookupT stAB2.tid_to_entry 1).map Context.switch_counter = some 8 := by
  refine ⟨by decide, rfl, by decide, by decide, rfl, rfl⟩

theorem main_eq_commit_of_switchable (s : SchedState) (max_events : Int)
    (ct : Nat) (c : Context) (poll : Nat → Option Int) (bwait : Option (Nat × Int))
    (hl : lookupT s.tid_to_entry ct = some c) (hsw : c.switchable = true) :
    rec_sched_get_active_thread s max_events (some ct) poll bwait
      = commitP (some ct) max_events
          (selectPrecommit (bootstrapCursor s) max_events (some ct) poll bwait) := by
  simp [rec_sched_get_active_thread, hl, hsw]

theorem scanLoop_first_hit (ring : List Nat) (tasks : List (Nat × Context))
    (poll : Nat → Option Int) (i fuel : Nat) (c : Context)
    (hl : lookupT tasks (ringAt ring (i % ring.length)) = some c)
    (hrun : c.exec_state ≠ ExecState.PROCESSING_SYSCALL) :
    scanLoop ring tasks poll i (fuel + 1)
      = .found (ringAt ring (i % ring.length)) false tasks := by
  simp only [scanLoop, hl]
  rw [if_pos hrun]

theorem scanAndFallback_cursor_runnable (s : SchedState) (cu : Nat) (c : Context)
    (poll : Nat → Option Int) (bwait : Option (Nat × Int))
    (hcu : s.current_entry = some cu) (hmem : cu ∈ s.ring)
    (hl : lookupT s.tid_to_entry cu = some c)
    (hrun : c.exec_state ≠ ExecState.PROCESSING_SYSCALL) :
    scanAndFallback s poll bwait
      = .ok cu false { s with current_entry := some cu } := by
  have hnn : s.ring ≠ [] := List.ne_nil_of_mem hmem
  have hidx : idxOf cu s.ring < s.ring.length := idxOf_lt_length cu s.ring hmem
  have hfirst : ringAt s.ring (idxOf cu s.ring % s.ring.length) = cu := by
    rw [Nat.mod_eq_of_lt hidx]
    exact ringAt_idxOf cu s.ring hmem
  have hempty : s.ring.isEmpty = false := by
    cases hr : s.ring with
    | nil => exact absurd hr hnn
    | cons a l => rfl
  obtain ⟨m, hm⟩ : ∃ m, s.ring.length = m + 1 := ⟨s.ring.length - 1, by omega⟩
  have h1 := scanLoop_first_hit s.ring s.tid_to_entry poll (idxOf cu s.ring) m c
    (by rw [hfirst]; exact hl) hrun
  rw [hfirst] at h1
  have hscan : scanLoop s.ring s.tid_to_entry poll (idxOf cu s.ring) s.ring.length
      = .found cu false s.tid_to_entry := by
    rw [hm]
    exact h1
  simp only [scanAndFallback, hcu, hempty, Bool.false_eq_true, if_false, hscan]

/-- One budget-exhaustion-driven call: from a well-formed,
all-runnable-and-switchable state with at least two tasks and the
cursor on `cu`, the call with `cu`'s budget forced negative selects
exactly the ring successor of `cu`, moves the cursor there, and only
rewrites budgets (the live tids and the runnable/switchable fields are
preserved). -/
theorem forced_step (s : SchedState) (cu : Nat) (max_events : Int)
    (hwf : WF s) (ha : allRunSw s.tid_to_entry = true)
    (hcu : s.current_entry = some cu) (hN : 2 ≤ s.ring.length) :
    ∃ tasks2,
      rec_sched_get_active_thread (forceNegative s cu) max_events (some cu)
          pollNone none
        = .ok (ringNext s.ring cu) false
            { s with current_entry := some (ringNext s.ring cu),
                     tid_to_entry := tasks2 } ∧
      tasks2.map Prod.fst = s.tid_to_entry.map Prod.fst ∧
      allRunSw tasks2 = true := by
  obtain ⟨hk, hn, hc, hcur⟩ := hwf
  have hmem : cu ∈ s.ring := cursorIn_mem s cu hcur hcu
  have hnn : s.ring ≠ [] := List.ne_nil_of_mem hmem
  have hnxmem : ringNext s.ring cu ∈ s.ring := ringNext_mem s.ring cu hnn
  have hnecu : ringNext s.ring cu ≠ cu := by
    intro he
    have := (ringNext_eq_self_iff s.ring cu hn hmem).mp he
    omega
  have hcusome : (lookupT s.tid_to_entry cu).isSome = true := by
    rw [lookupT_isSome_iff, hk]
    exact hmem
  obtain ⟨c0, hc0⟩ := Option.isSome_iff_exists.mp hcusome
  obtain ⟨hc0run, hc0sw⟩ := allRunSw_lookup _ _ _ ha hc0
  have hnxsome : (lookupT s.tid_to_entry (ringNext s.ring cu)).isSome = true := by
    rw [lookupT_isSome_iff, hk]
    exact hnxmem
  obtain ⟨cnx, hcnx⟩ := Option.isSome_iff_exists.mp hnxsome
  obtain ⟨hcnxrun, _⟩ := allRunSw_lookup _ _ _ ha hcnx
  have hlk1 : lookupT (forceNegative s cu).tid_to_entry cu
      = some { c0 with switch_counter := -1 } := by
    have h := lookupT_adjustT_self s.tid_to_entry cu
      (fun c2 => { c2 with switch_counter := (-1 : Int) })
    rw [hc0] at h
    exact h
  have hb : bootstrapCursor (forceNegative s cu) = forceNegative s cu :=
    bootstrap_of_some _ cu hcu
  have e1 := main_eq_commit_of_switchable (forceNegative s cu) max_events cu
    { c0 with switch_counter := -1 } pollNone none hlk1 hc0sw
  rw [hb] at e1
  have hneg : ({ c0 with switch_counter := (-1 : Int) } : Context).switch_counter < 0 := by
    show (-1 : Int) < 0
    decide
  have hcu2 : (forceNegative s cu).current_entry = some cu := hcu
  have e2 : selectPrecommit (forceNegative s cu) max_events (some cu) pollNone none
      = scanAndFallback
          { s with
            current_entry := some (ringNext s.ring cu),
            tid_to_entry := adjustT
              (adjustT s.tid_to_entry cu (fun c2 => { c2 with switch_counter := -1 }))
              cu (fun c2 => { c2 with switch_counter := max_events }) }
          pollNone none := by
    simp only [selectPrecommit, hcu2, hlk1, if_pos hneg]
    rfl
  have hlknx : lookupT (adjustT
      (adjustT s.tid_to_entry cu (fun c2 => { c2 with switch_counter := -1 }))
      cu (fun c2 => { c2 with switch_counter := max_events })) (ringNext s.ring cu)
      = some cnx := by
    rw [lookupT_adjustT_ne _ _ _ _ hnecu, lookupT_adjustT_ne _ _ _ _ hnecu]
    exact hcnx
  have hrunnx : cnx.exec_state ≠ ExecState.PROCESSING_SYSCALL := by
    rw [hcnxrun]
    simp
  have e3 := scanAndFallback_cursor_runnable
    { s with
      current_entry := some (ringNext s.ring cu),
      tid_to_entry := adjustT
        (adjustT s.tid_to_entry cu (fun c2 => { c2 with switch_counter := -1 }))
        cu (fun c2 => { c2 with switch_counter := max_events }) }
    (ringNext s.ring cu) cnx pollNone none rfl hnxmem hlknx hrunnx
  refine ⟨adjustT (adjustT
      (adjustT s.tid_to_entry cu (fun c2 => { c2 with switch_counter := -1 }))
      cu (fun c2 => { c2 with switch_counter := max_events }))
      (ringNext s.ring cu) (fun c2 => { c2 with switch_counter := max_events }),
    ?_, ?_, ?_⟩
  · rw [e1, e2, e3]
    simp only [commitP, note_switch]
    rw [if_neg (fun h => hnecu (Option.some.inj h).symm)]
  · rw [adjustT_keys, adjustT_keys, adjustT_keys]
  · refine allRunSw_adjustT _ _ _ (fun c2 => ⟨rfl, rfl⟩)
      (allRunSw_adjustT _ _ _ (fun c2 => ⟨rfl, rfl⟩)
        (allRunSw_adjustT _ _ _ (fun c2 => ⟨rfl, rfl⟩) ha))

/-- The tids selected by successive budget-exhaustion-driven calls are
the successive ring entries after the cursor. -/
theorem exhausted_run_eq (max_events : Int) (n : Nat) :
    ∀ (s : SchedState) (cu : Nat), WF s → allRunSw s.tid_to_entry = true →
      s.current_entry = some cu → 2 ≤ s.ring.length →
      exhaustedSelections max_events s n = (List.range n).map
        (fun k => ringAt s.ring ((idxOf cu s.ring + 1 + k) % s.ring.length)) := by
  induction n with
  | zero => intro s cu _ _ _ _; rfl
  | succ m ih =>
    intro s cu hwf ha hcu hN
    obtain ⟨tasks2, heq, hkeys, ha2⟩ := forced_step s cu max_events hwf ha hcu hN
    obtain ⟨hk, hn, hc, hcur⟩ := hwf
    have hmem : cu ∈ s.ring := cursorIn_mem s cu hcur hcu
    have hlen : 0 < s.ring.length := by omega
    have hnxmem : ringNext s.ring cu ∈ s.ring :=
      ringNext_mem s.ring cu (List.ne_nil_of_mem hmem)
    have hwf2 : WF { s with
        current_entry := some (ringNext s.ring cu),
        tid_to_entry := tasks2 } := by
      refine ⟨?_, hn, hc, ?_⟩
      · show tasks2.map Prod.fst = s.ring
        rw [hkeys, hk]
      · rw [cursorIn_iff]
        intro t ht
        have : t = ringNext s.ring cu := by
          injection ht with h
          exact h.symm
        rw [this]
        exact hnxmem
    have hstep : exhaustedSelections max_events s (m + 1)
        = ringNext s.ring cu :: exhaustedSelections max_events
            { s with
              current_entry := some (ringNext s.ring cu),
              tid_to_entry := tasks2 } m := by
      simp only [exhaustedSelections, hcu, heq]
    have hih := ih
      { s with
        current_entry := some (ringNext s.ring cu),
        tid_to_entry := tasks2 } (ringNext s.ring cu) hwf2 ha2 rfl hN
    rw [hstep, hih]
    have hidxnx : idxOf (ringNext s.ring cu) s.ring
        = (idxOf cu s.ring + 1) % s.ring.length :=
      idxOf_ringAt s.ring _ hn (Nat.mod_lt _ hlen)
    show ringNext s.ring cu :: (List.range m).map
        (fun k => ringAt s.ring
          ((idxOf (ringNext s.ring cu) s.ring + 1 + k) % s.ring.length))
      = _
    rw [hidxnx, List.range_succ_eq_map, List.map_cons, List.map_map]
    refine List.cons_eq_cons.mpr ⟨?_, ?_⟩
    · show ringNext s.ring cu
        = ringAt s.ring ((idxOf cu s.ring + 1 + 0) % s.ring.length)
      rw [Nat.add_zero]
      rfl
    · refine List.map_congr_left ?_
      intro k _
      show ringAt s.ring (((idxOf cu s.ring + 1) % s.ring.length + 1 + k) % s.ring.length)
        = ringAt s.ring ((idxOf cu s.ring + 1 + (k + 1)) % s.ring.length)
      have harith : ((idxOf cu s.ring + 1) % s.ring.length + 1 + k) % s.ring.length
          = (idxOf cu s.ring + 1 + (k + 1)) % s.ring.length := by
        rw [Nat.add_assoc ((idxOf cu s.ring + 1) % s.ring.length) 1 k,
          Nat.mod_add_mod, Nat.add_comm 1 k]
      rw [harith]

/-- C5 (amended to the switching regime, which the counterexample
forces: with always-runnable switchable tasks the scheduler re-selects
the current task while its budget lasts, so visits are counted over the
calls in which the current task has exhausted its budget — the calls in
which the scheduler actually switches): starting anywhere in a
well-formed ring of N ≥ 2 such tasks, any n ≤ N successive
budget-exhaustion-driven selections are pairwise distinct, and n = N of
them cover every task — every task is visited once before any task is
visited a second time. -/
theorem select_round_robin (s : SchedState) (cu : Nat) (max_events : Int)
    (n : Nat) (hwf : WF s) (ha : allRunSw s.tid_to_entry = true)
    (hcu : s.current_entry = some cu) (hN : 2 ≤ s.ring.length)
    (hn : n ≤ s.ring.length) :
    (exhaustedSelections max_events s n).Nodup ∧
    (n = s.ring.length →
      ∀ t ∈ s.ring, t ∈ exhaustedSelections max_events s n) := by
  have hrun := exhausted_run_eq max_events n s cu hwf ha hcu hN
  obtain ⟨hk, hnod, hc, hcur⟩ := hwf
  have hlen : 0 < s.ring.length := by omega
  have hinj : ∀ x ∈ List.range n, ∀ y ∈ List.range n,
      ringAt s.ring ((idxOf cu s.ring + 1 + x) % s.ring.length)
        = ringAt s.ring ((idxOf cu s.ring + 1 + y) % s.ring.length) → x = y := by
    intro x hx y hy hxy
    have hx' : x < n := List.mem_range.mp hx
    have hy' : y < n := List.mem_range.mp hy
    have heqm := ringAt_inj s.ring _ _ hnod (Nat.mod_lt _ hlen)
      (Nat.mod_lt _ hlen) hxy
    have hmod : x % s.ring.length = y % s.ring.length :=
      Nat.ModEq.add_left_cancel' (idxOf cu s.ring + 1) heqm
    rw [Nat.mod_eq_of_lt (lt_of_lt_of_le hx' hn),
      Nat.mod_eq_of_lt (lt_of_lt_of_le hy' hn)] at hmod
    exact hmod
  have hnodup : (exhaustedSelections max_events s n).Nodup := by
    rw [hrun]
    exact List.Nodup.map_on hinj (List.nodup_range n)
  refine ⟨hnodup, ?_⟩
  intro hnN t ht
  have hsubset : exhaustedSelections max_events s n ⊆ s.ring := by
    rw [hrun]
    intro x hx
    rcases List.mem_map.mp hx with ⟨k, _, hk2⟩
    rw [← hk2]
    exact ringAt_mem s.ring _ (Nat.mod_lt _ hlen)
  have hlength : s.ring.length ≤ (exhaustedSelections max_events s n).length := by
    rw [hrun]
    simp [hnN]
  have hperm : List.Perm (exhaustedSelections max_events s n) s.ring :=
    (List.subperm_of_subset hnodup hsubset).perm_of_length_le hlength
  exact hperm.mem_iff.mpr ht

/-- Three always-runnable switchable tasks, cursor at task 1. -/
def stR3 : SchedState :=
  { ring := [1, 2, 3],
    tid_to_entry := [(1, ctxRun 1 5), (2, ctxRun 2 5), (3, ctxRun 3 5)],
    current_entry := some 1, num_active_threads := 3 }

/-- Witness for C5 at a concrete input: three budget-exhaustion-driven
selections from `stR3` are pairwise distinct and cover all three tasks
([2, 3, 1]). -/
theorem select_round_robin_witness :
    WF stR3 ∧ allRunSw stR3.tid_to_entry = true ∧
    stR3.current_entry = some 1 ∧ 2 ≤ stR3.ring.length ∧ 3 ≤ stR3.ring.length ∧
    ((exhaustedSelections 10 stR3 3).Nodup ∧
      (3 = stR3.ring.length → ∀ t ∈ stR3.ring, t ∈ exhaustedSelections 10 stR3 3)) := by
  have hw : WF stR3 := ⟨rfl, by decide, rfl, rfl⟩
  exact ⟨hw, by decide, rfl, by decide, by decide,
    select_round_robin stR3 1 10 3 hw (by decide) rfl (by decide) (by decide)⟩

end RecSched
